import Mathlib

/-!
Shallow embedding of GaiaComponents (src/GaiaComponents/Component.hpp,
src/GaiaComponents/Component.cpp).

A `Comp` models one `Gaia::Components::Component` object: `cid` is its
address (pointer identity), `parent` the `Parent` back-pointer
(`none` = `nullptr`), `payload` the opaque state a concrete subclass adds
(like `SampleValueComponent::SampleValue`), and `children` the
`SubComponents` map from type hash code to the exclusively owned child.
The map is modelled as an association list; `unordered_map::find` is
first-match lookup, `erase` removes the found entry, assignment through
the iterator (`finder->second = ...`) replaces it in place, `emplace`
inserts a fresh entry.

The four virtual lifecycle hooks are opaque user callbacks, so each
operation returns, besides the new state, the trace of hook invocations
it performs, as a list of `Event`s in invocation order.
-/

/-- One invocation of a lifecycle hook, identified by the addresses of the
objects it is invoked on / with. -/
inductive Event : Type where
  /-- `parent.OnComponentDetached(child)` -/
  | onComponentDetached (pid child : Nat)
  /-- `child.OnDetachedFromComponent()` -/
  | onDetachedFromComponent (child : Nat)
  /-- `parent.OnComponentAttached(child)` -/
  | onComponentAttached (pid child : Nat)
  /-- `child.OnAttachedToComponent()` -/
  | onAttachedToComponent (child : Nat)
deriving DecidableEq

/-- A component object together with the subtree it owns. -/
inductive Comp : Type where
  | node (cid : Nat) (parent : Option Nat) (payload : Int)
      (children : List (Nat × Comp)) : Comp

/-- Address (pointer identity) of the component. -/
def Comp.cid : Comp → Nat
  | .node i _ _ _ => i

/-- The `Parent` back-pointer (`Component::GetParent`). -/
def Comp.parent : Comp → Option Nat
  | .node _ p _ _ => p

/-- Opaque payload state of the concrete variant. -/
def Comp.payload : Comp → Int
  | .node _ _ v _ => v

/-- The `SubComponents` map. -/
def Comp.children : Comp → List (Nat × Comp)
  | .node _ _ _ cs => cs

/-- Assign the `Parent` field (`component_pointer->Parent = this`). -/
def setParent : Comp → Option Nat → Comp
  | .node i _ v cs, p => .node i p v cs

/-- Replace the `SubComponents` map wholesale (used to express the effect
of map mutations on the owning object). -/
def setChildren : Comp → List (Nat × Comp) → Comp
  | .node i p v _, cs => .node i p v cs

/-- `SubComponents.find(hash)`: first entry with the given key. -/
def findChild : List (Nat × Comp) → Nat → Option Comp
  | [], _ => none
  | (k, c) :: rest, h => if k = h then some c else findChild rest h

/-- `SubComponents.erase(finder)`: drop the found entry. -/
def eraseChild : List (Nat × Comp) → Nat → List (Nat × Comp)
  | [], _ => []
  | (k, c) :: rest, h =>
      if k = h then rest else (k, c) :: eraseChild rest h

/-- `finder->second = std::move(component_instance)`: overwrite the slot
in place. -/
def replaceChild : List (Nat × Comp) → Nat → Comp → List (Nat × Comp)
  | [], _, _ => []
  | (k, c) :: rest, h, nc =>
      if k = h then (k, nc) :: rest else (k, c) :: replaceChild rest h nc

mutual
/-- Hook trace of `Component::~Component` run on this object: the
destructor body fires `OnDetachedFromComponent` on every direct child,
then the `SubComponents` member is destroyed, running each child's own
destructor in turn. -/
def destroyEvents : Comp → List Event
  | .node _ _ _ cs =>
      cs.map (fun kc => Event.onDetachedFromComponent kc.2.cid)
        ++ destroyEventsList cs

/-- Hook trace of destroying the entries of a `SubComponents` map. -/
def destroyEventsList : List (Nat × Comp) → List Event
  | [] => []
  | kc :: rest => destroyEvents kc.2 ++ destroyEventsList rest
end

mutual
/-- Addresses of every object in the subtree, root included. -/
def subtreeIds : Comp → List Nat
  | .node i _ _ cs => i :: subtreeIdsList cs

/-- Addresses of every object owned through a `SubComponents` map. -/
def subtreeIdsList : List (Nat × Comp) → List Nat
  | [] => []
  | kc :: rest => subtreeIds kc.2 ++ subtreeIdsList rest
end

/-!
The registry operations of `Component.cpp`. Each returns the parent
object's new state, the trace of hook invocations in order, and the
operation's result. `Component::AddSubComponent` dereferences
`component_pointer` (`component_pointer->Parent = this;`) with no null
guard; a null argument is therefore modelled as `Except.error`, carrying
the hooks that already fired before the null dereference is reached.
-/

/-- `Component::AddSubComponent (Component.cpp)`: if the hash is present,
fire `OnComponentDetached(old)` then `old->OnDetachedFromComponent()`,
then overwrite the slot (destroying the old child); otherwise emplace.
Then set `component_pointer->Parent = this`, fire
`OnComponentAttached(new)` then `new->OnAttachedToComponent()`, and
return the pointer to the stored child. -/
def addSubComponent (p : Comp) (hash : Nat) (component_instance : Option Comp) :
    Except (List Event) (Comp × List Event × Nat) :=
  match findChild p.children hash with
  | some old =>
    let detachTrace :=
      [Event.onComponentDetached p.cid old.cid,
       Event.onDetachedFromComponent old.cid] ++ destroyEvents old
    match component_instance with
    | none => Except.error detachTrace
    | some cp =>
      Except.ok
        (setChildren p (replaceChild p.children hash (setParent cp (some p.cid))),
         detachTrace
           ++ [Event.onComponentAttached p.cid cp.cid,
               Event.onAttachedToComponent cp.cid],
         cp.cid)
  | none =>
    match component_instance with
    | none => Except.error []
    | some cp =>
      Except.ok
        (setChildren p (p.children ++ [(hash, setParent cp (some p.cid))]),
         [Event.onComponentAttached p.cid cp.cid,
          Event.onAttachedToComponent cp.cid],
         cp.cid)

/-- `Component::RemoveSubComponent (Component.cpp)`: if the hash is
present, fire `OnDetachedFromComponent()` on the child, then
`OnComponentDetached(child)` on the parent, then erase the slot,
destroying the child (and so running its destructor's hook cascade).
No-op when absent. -/
def removeSubComponent (p : Comp) (hash : Nat) : Comp × List Event :=
  match findChild p.children hash with
  | some old =>
      (setChildren p (eraseChild p.children hash),
       [Event.onDetachedFromComponent old.cid,
        Event.onComponentDetached p.cid old.cid] ++ destroyEvents old)
  | none => (p, [])

/-- `Component::GetSubComponent (Component.cpp)`: pure lookup, no hooks,
no mutation. -/
def getSubComponent (p : Comp) (hash : Nat) : Option Comp :=
  findChild p.children hash

/-- `Component::SeparateSubComponent (Component.cpp)`: if the hash is
present, move the owned child out, erase the slot and return the child;
otherwise return an empty pointer. No hooks are invoked and the child's
`Parent` field is left untouched. -/
def separateSubComponent (p : Comp) (hash : Nat) :
    Comp × List Event × Option Comp :=
  match findChild p.children hash with
  | some c => (setChildren p (eraseChild p.children hash), [], some c)
  | none => (p, [], none)

/-!
The template wrappers of `Component.hpp`. `AddComponent<T>` passes
`make_unique<T>(args...)` (never null); `AdoptComponent<T>` passes the
caller's pointer as-is; the hash is `typeid(T).hash_code()`.
-/

/-- `Component::AddComponent<T> (Component.hpp)`: construct a fresh
instance and hand it to `AddSubComponent` under `T`'s hash. -/
def addComponent (p : Comp) (hash : Nat) (fresh : Comp) :
    Except (List Event) (Comp × List Event × Nat) :=
  addSubComponent p hash (some fresh)

/-- `Component::AdoptComponent<T> (Component.hpp)`: hand an
externally owned (possibly null) pointer to `AddSubComponent`. -/
def adoptComponent (p : Comp) (hash : Nat) (component : Option Comp) :
    Except (List Event) (Comp × List Event × Nat) :=
  addSubComponent p hash component

/-- `Component::RemoveComponent<T> (Component.hpp)`. -/
def removeComponent (p : Comp) (hash : Nat) : Comp × List Event :=
  removeSubComponent p hash

/-- `Component::GetComponent<T> (Component.hpp)`. -/
def getComponent (p : Comp) (hash : Nat) : Option Comp :=
  getSubComponent p hash

/-- `Component::HasComponent<T> (Component.hpp)`. -/
def hasComponent (p : Comp) (hash : Nat) : Bool :=
  (getSubComponent p hash).isSome

/-- `Component::SeparateComponent<T> (Component.hpp)`. -/
def separateComponent (p : Comp) (hash : Nat) :
    Comp × List Event × Option Comp :=
  separateSubComponent p hash

/-- `Component::AcquireComponent<T> (Component.hpp)`: return the existing
child if present, else `AddComponent<T>()` with a default-constructed
instance (`fresh`). The error branch is unreachable because
`make_unique` never yields null. -/
def acquireComponent (p : Comp) (hash : Nat) (fresh : Comp) :
    Comp × List Event × Nat :=
  match getComponent p hash with
  | some component => (p, [], component.cid)
  | none =>
    match addComponent p hash fresh with
    | .ok r => r
    | .error _ => (p, [], 0)

/-!
Locking model of `Component.cpp`. Each registry operation acquires
exactly one lock on the per-instance `SubComponentsMutex`
(`std::shared_mutex`) for its whole duration: `AddSubComponent` and
`RemoveSubComponent` take `std::unique_lock`, `GetSubComponent` takes
`std::shared_lock`, and `SeparateSubComponent` also takes only
`std::shared_lock`. Two operations on the same instance are mutually
exclusive iff at least one of them holds the exclusive (unique) mode.
-/

/-- The mode in which an operation locks `SubComponentsMutex`. -/
inductive LockMode : Type where
  | sharedLock
  | exclusiveLock
deriving DecidableEq

/-- The four private registry operations of `Component.cpp`. -/
inductive RegistryOp : Type where
  | addOp
  | removeOp
  | getOp
  | separateOp
deriving DecidableEq

/-- Lock each operation acquires, read off `Component.cpp`:
`std::unique_lock` in `AddSubComponent` and `RemoveSubComponent`,
`std::shared_lock` in `GetSubComponent` and in `SeparateSubComponent`. -/
def lockModeOf : RegistryOp → LockMode
  | .addOp => .exclusiveLock
  | .removeOp => .exclusiveLock
  | .getOp => .sharedLock
  | .separateOp => .sharedLock

/-- Which operations mutate the registry structure. -/
def isStructuralMutation : RegistryOp → Bool
  | .addOp => true
  | .removeOp => true
  | .getOp => false
  | .separateOp => true

/-- `std::shared_mutex` semantics: two lock holders exclude each other
iff at least one holds the exclusive mode. -/
def mutuallyExclusive (a b : RegistryOp) : Bool :=
  lockModeOf a = LockMode.exclusiveLock
    || lockModeOf b = LockMode.exclusiveLock

/-!
Concrete fixtures used by witnesses and counterexamples.
-/

/-- A child object as stored after an attach: address 2, `Parent` pointing
at address 1, payload 5, no children of its own. -/
def sampleChild : Comp := Comp.node 2 (some 1) 5 []

/-- A parent object at address 1 holding `sampleChild` under type hash 10. -/
def sampleParent : Comp := Comp.node 1 none 0 [(10, sampleChild)]

/-- A component with an empty registry. -/
def sampleLeaf : Comp := Comp.node 1 none 0 []

/-- A parent at address 1 with two attached children, addresses 2 and 3. -/
def sampleTwoKids : Comp :=
  Comp.node 1 none 0
    [(10, Comp.node 2 (some 1) 0 []), (11, Comp.node 3 (some 1) 0 [])]

/-- A fresh replacement child: address 7, not yet attached, payload 9. -/
def sampleNew : Comp := Comp.node 7 none 9 []


theorem setChildren_children (p : Comp) (cs : List (Nat × Comp)) :
    (setChildren p cs).children = cs := by cases p; rfl

theorem setChildren_cid (p : Comp) (cs : List (Nat × Comp)) :
    (setChildren p cs).cid = p.cid := by cases p; rfl

theorem setParent_cid (c : Comp) (q : Option Nat) :
    (setParent c q).cid = c.cid := by cases c; rfl

theorem setParent_payload (c : Comp) (q : Option Nat) :
    (setParent c q).payload = c.payload := by cases c; rfl

theorem setParent_parent (c : Comp) (q : Option Nat) :
    (setParent c q).parent = q := by cases c; rfl

theorem subtreeIds_eq (c : Comp) :
    subtreeIds c = c.cid :: subtreeIdsList c.children := by cases c; rfl

theorem findChild_eq_none (l : List (Nat × Comp)) (h : Nat)
    (hm : h ∉ l.map Prod.fst) : findChild l h = none := by
  induction l with
  | nil => rfl
  | cons kc rest ih =>
    obtain ⟨k, c⟩ := kc
    simp only [List.map_cons, List.mem_cons, not_or] at hm
    have hk : ¬ k = h := fun he => hm.1 he.symm
    simp only [findChild, if_neg hk]
    exact ih hm.2

theorem findChild_eraseChild (l : List (Nat × Comp)) (h : Nat)
    (hnd : (l.map Prod.fst).Nodup) : findChild (eraseChild l h) h = none := by
  induction l with
  | nil => rfl
  | cons kc rest ih =>
    obtain ⟨k, c⟩ := kc
    simp only [List.map_cons, List.nodup_cons] at hnd
    by_cases hk : k = h
    · simp only [eraseChild, if_pos hk]
      exact findChild_eq_none rest h (hk ▸ hnd.1)
    · simp only [eraseChild, if_neg hk, findChild]
      exact ih hnd.2

theorem findChild_append (l : List (Nat × Comp)) (h : Nat) (c : Comp)
    (hn : findChild l h = none) : findChild (l ++ [(h, c)]) h = some c := by
  induction l with
  | nil => simp [findChild]
  | cons kc rest ih =>
    obtain ⟨k, d⟩ := kc
    simp only [findChild] at hn
    by_cases hk : k = h
    · rw [if_pos hk] at hn; cases hn
    · rw [if_neg hk] at hn
      simp only [List.cons_append, findChild, if_neg hk]
      exact ih hn

theorem findChild_replaceChild (l : List (Nat × Comp)) (h : Nat) (old nc : Comp)
    (hf : findChild l h = some old) :
    findChild (replaceChild l h nc) h = some nc := by
  induction l with
  | nil => simp [findChild] at hf
  | cons kc rest ih =>
    obtain ⟨k, d⟩ := kc
    by_cases hk : k = h
    · simp [replaceChild, if_pos hk, findChild]
    · simp only [findChild, if_neg hk] at hf
      simp only [replaceChild, if_neg hk, findChild]
      exact ih hf

mutual
theorem destroyEvents_only_detached (p : Comp) :
    ∀ e ∈ destroyEvents p, ∃ i, e = Event.onDetachedFromComponent i := by
  cases p with
  | node cid par pay cs =>
    intro e he
    simp only [destroyEvents] at he
    rcases List.mem_append.mp he with h1 | h2
    · rcases List.mem_map.mp h1 with ⟨kc, _, hkc⟩
      exact ⟨kc.2.cid, hkc.symm⟩
    · exact destroyEventsList_only_detached cs e h2

theorem destroyEventsList_only_detached (cs : List (Nat × Comp)) :
    ∀ e ∈ destroyEventsList cs, ∃ i, e = Event.onDetachedFromComponent i := by
  cases cs with
  | nil =>
    intro e he
    simp only [destroyEventsList, List.not_mem_nil] at he
  | cons kc rest =>
    intro e he
    simp only [destroyEventsList] at he
    rcases List.mem_append.mp he with h1 | h2
    · exact destroyEvents_only_detached kc.2 e h1
    · exact destroyEventsList_only_detached rest e h2
end

theorem count_map_detach (cs : List (Nat × Comp)) (i : Nat) :
    (cs.map (fun kc => Event.onDetachedFromComponent kc.2.cid)).count
        (Event.onDetachedFromComponent i)
      = (cs.map (fun kc => kc.2.cid)).count i := by
  induction cs with
  | nil => rfl
  | cons kc rest ih =>
    simp only [List.map_cons, List.count_cons, ih]
    congr 1
    by_cases h : kc.2.cid = i
    · simp [h]
    · simp [h]

mutual
theorem count_destroyEvents (p : Comp) (i : Nat) :
    (destroyEvents p).count (Event.onDetachedFromComponent i)
      = (subtreeIdsList p.children).count i := by
  cases p with
  | node cid par pay cs =>
    simp only [destroyEvents, Comp.children, List.count_append,
      count_map_detach]
    have h := count_destroyEventsList cs i
    omega

theorem count_destroyEventsList (cs : List (Nat × Comp)) (i : Nat) :
    (destroyEventsList cs).count (Event.onDetachedFromComponent i)
      + (cs.map (fun kc => kc.2.cid)).count i
      = (subtreeIdsList cs).count i := by
  cases cs with
  | nil => simp [destroyEventsList, subtreeIdsList]
  | cons kc rest =>
    have h1 := count_destroyEvents kc.2 i
    have h2 := count_destroyEventsList rest i
    simp only [destroyEventsList, subtreeIdsList, List.count_append,
      List.map_cons, List.count_cons, subtreeIds_eq] at h1 h2 ⊢
    omega
end

/-- C1 counterexample: on a parent (address 1) holding a child (address 2)
under hash 10, `SeparateSubComponent` returns the live child but its hook
trace is empty — neither the child's "detached from component" hook nor the
parent's "component detached" hook fires, contrary to the claim. -/
theorem C1_counterexample :
    (separateSubComponent sampleParent 10).2.2 = some sampleChild ∧
    (separateSubComponent sampleParent 10).2.1 = [] ∧
    Event.onDetachedFromComponent sampleChild.cid ∉
      (separateSubComponent sampleParent 10).2.1 ∧
    Event.onComponentDetached sampleParent.cid sampleChild.cid ∉
      (separateSubComponent sampleParent 10).2.1 :=
  ⟨rfl, rfl, by decide, by decide⟩

/-- C1 (amended): on a parent holding a child keyed by `hash`,
`SeparateSubComponent` removes the slot and returns ownership of the live
child, unchanged and undestroyed, to the caller — but it fires no hooks at
all. -/
theorem C1_separate_no_hooks (p : Comp) (hash : Nat) (c : Comp)
    (h : findChild p.children hash = some c) :
    separateSubComponent p hash
      = (setChildren p (eraseChild p.children hash), [], some c) := by
  simp only [separateSubComponent, h]

/-- C1 witness: the amended statement at the concrete sample. -/
theorem C1_separate_no_hooks_witness :
    findChild sampleParent.children 10 = some sampleChild ∧
    separateSubComponent sampleParent 10
      = (setChildren sampleParent (eraseChild sampleParent.children 10),
         [], some sampleChild) :=
  ⟨rfl, C1_separate_no_hooks sampleParent 10 sampleChild rfl⟩

/-- C2 counterexample: after separating the child at address 2 from the
parent at address 1, the returned value's `Parent` field still holds
address 1 — `GetParent()` on it returns the old parent, not null. -/
theorem C2_counterexample :
    ((separateSubComponent sampleParent 10).2.2).map Comp.parent
      = some (some 1) ∧
    ((separateSubComponent sampleParent 10).2.2).map Comp.parent
      ≠ some none :=
  ⟨rfl, by decide⟩

/-- C2 (amended): `SeparateSubComponent` does not touch the separated
child's `Parent` field: the returned value's back-reference still holds the
former parent's address (stale), so `GetParent()` on it returns the old
parent rather than null. -/
theorem C2_parent_not_cleared (p : Comp) (hash : Nat) (c : Comp)
    (h : findChild p.children hash = some c) (hp : c.parent = some p.cid) :
    ((separateSubComponent p hash).2.2).map Comp.parent
      = some (some p.cid) := by
  simp only [separateSubComponent, h, Option.map_some', hp]

/-- C2 witness: the amended statement at the concrete sample. -/
theorem C2_parent_not_cleared_witness :
    (findChild sampleParent.children 10 = some sampleChild ∧
      sampleChild.parent = some sampleParent.cid) ∧
    ((separateSubComponent sampleParent 10).2.2).map Comp.parent
      = some (some sampleParent.cid) :=
  ⟨⟨rfl, rfl⟩, C2_parent_not_cleared sampleParent 10 sampleChild rfl rfl⟩

/-- C3: divergence between the claim and the code's locking.
`SeparateSubComponent` mutates the registry (it erases the slot) yet
acquires only `std::shared_lock` on `SubComponentsMutex`, so under
`std::shared_mutex` semantics it is not mutually exclusive with concurrent
reads, nor with another concurrent separate — while add and remove do take
the exclusive mode as the claim describes. -/
theorem C3_separate_shared_lock :
    isStructuralMutation RegistryOp.separateOp = true ∧
    lockModeOf RegistryOp.separateOp = LockMode.sharedLock ∧
    mutuallyExclusive RegistryOp.separateOp RegistryOp.getOp = false ∧
    mutuallyExclusive RegistryOp.separateOp RegistryOp.separateOp = false ∧
    mutuallyExclusive RegistryOp.addOp RegistryOp.getOp = true ∧
    mutuallyExclusive RegistryOp.removeOp RegistryOp.getOp = true := by
  decide

/-- The address of a direct child occurs among the subtree addresses of
the map that holds it. -/
theorem cid_mem_subtreeIdsList (cs : List (Nat × Comp)) (kc : Nat × Comp)
    (hkc : kc ∈ cs) : kc.2.cid ∈ subtreeIdsList cs := by
  induction cs with
  | nil => cases hkc
  | cons hd rest ih =>
    simp only [subtreeIdsList, List.mem_append]
    rcases List.mem_cons.mp hkc with he | hm
    · left
      subst he
      rw [subtreeIds_eq]
      exact List.mem_cons_self _ _
    · right
      exact ih hm

/-- C4: replacing an occupied slot via `AddSubComponent` fires the
parent's `OnComponentDetached` on the old child, then the old child's own
`OnDetachedFromComponent`, then overwrites the slot (running the old
child's destructor cascade); the stored new child has its `Parent` set
before the attach hooks, the parent's `OnComponentAttached` fires before
the new child's `OnAttachedToComponent`, afterwards lookup returns the new
instance, and the old child's detach hook occurs exactly once, strictly
before the new child's attach hooks (the detach segment of the trace holds
it once and holds no attach events). -/
theorem C4_replace_semantics (p : Comp) (hash : Nat) (old nc : Comp)
    (h : findChild p.children hash = some old)
    (hfresh : Event.onDetachedFromComponent old.cid ∉ destroyEvents old) :
    addSubComponent p hash (some nc)
      = Except.ok
          (setChildren p
             (replaceChild p.children hash (setParent nc (some p.cid))),
           ([Event.onComponentDetached p.cid old.cid,
             Event.onDetachedFromComponent old.cid] ++ destroyEvents old)
             ++ [Event.onComponentAttached p.cid nc.cid,
                 Event.onAttachedToComponent nc.cid],
           nc.cid) ∧
    getComponent
        (setChildren p
          (replaceChild p.children hash (setParent nc (some p.cid)))) hash
      = some (setParent nc (some p.cid)) ∧
    (setParent nc (some p.cid)).parent = some p.cid ∧
    (setParent nc (some p.cid)).cid = nc.cid ∧
    ([Event.onComponentDetached p.cid old.cid,
      Event.onDetachedFromComponent old.cid] ++ destroyEvents old).count
        (Event.onDetachedFromComponent old.cid) = 1 ∧
    Event.onAttachedToComponent nc.cid ∉
      ([Event.onComponentDetached p.cid old.cid,
        Event.onDetachedFromComponent old.cid] ++ destroyEvents old) ∧
    Event.onComponentAttached p.cid nc.cid ∉
      ([Event.onComponentDetached p.cid old.cid,
        Event.onDetachedFromComponent old.cid] ++ destroyEvents old) := by
  refine ⟨?_, ?_, setParent_parent nc _, setParent_cid nc _, ?_, ?_, ?_⟩
  · simp only [addSubComponent, h]
  · simp only [getComponent, getSubComponent, setChildren_children]
    exact findChild_replaceChild p.children hash old _ h
  · simp [List.count_append, List.count_cons, List.count_eq_zero.mpr hfresh]
  · intro hmem
    rcases List.mem_append.mp hmem with h1 | h2
    · simp at h1
    · rcases destroyEvents_only_detached old _ h2 with ⟨i, hi⟩
      cases hi
  · intro hmem
    rcases List.mem_append.mp hmem with h1 | h2
    · simp at h1
    · rcases destroyEvents_only_detached old _ h2 with ⟨i, hi⟩
      cases hi

/-- C4 witness: the replace path evaluated on the concrete sample. -/
theorem C4_replace_semantics_witness :
    (findChild sampleParent.children 10 = some sampleChild ∧
      Event.onDetachedFromComponent sampleChild.cid ∉ destroyEvents sampleChild) ∧
    addSubComponent sampleParent 10 (some sampleNew)
      = Except.ok
          (setChildren sampleParent
             (replaceChild sampleParent.children 10
               (setParent sampleNew (some sampleParent.cid))),
           ([Event.onComponentDetached sampleParent.cid sampleChild.cid,
             Event.onDetachedFromComponent sampleChild.cid]
              ++ destroyEvents sampleChild)
             ++ [Event.onComponentAttached sampleParent.cid sampleNew.cid,
                 Event.onAttachedToComponent sampleNew.cid],
           sampleNew.cid) :=
  ⟨⟨rfl, by decide⟩,
   (C4_replace_semantics sampleParent 10 sampleChild sampleNew rfl (by decide)).1⟩

/-- C5 (amended): separating a child and adopting it back restores
lookup to an instance with the original address and payload, with the
attach hooks fired exactly once during the adopt; but the separate step
fires no detach hooks (its trace is empty), unlike the claim's
detach-then-attach pairing. -/
theorem C5_roundtrip (p : Comp) (hash : Nat) (c : Comp)
    (h : findChild p.children hash = some c)
    (hnd : (p.children.map Prod.fst).Nodup) :
    (separateSubComponent p hash).2.2 = some c ∧
    (separateSubComponent p hash).2.1 = [] ∧
    ∃ p2,
      adoptComponent (separateSubComponent p hash).1 hash
          ((separateSubComponent p hash).2.2)
        = Except.ok (p2,
            [Event.onComponentAttached p.cid c.cid,
             Event.onAttachedToComponent c.cid], c.cid) ∧
      (getComponent p2 hash).map Comp.cid = some c.cid ∧
      (getComponent p2 hash).map Comp.payload = some c.payload := by
  have hsep : separateSubComponent p hash
      = (setChildren p (eraseChild p.children hash), [], some c) := by
    simp only [separateSubComponent, h]
  have hnone : findChild (eraseChild p.children hash) hash = none :=
    findChild_eraseChild p.children hash hnd
  refine ⟨by rw [hsep], by rw [hsep], ?_⟩
  rw [hsep]
  refine ⟨setChildren (setChildren p (eraseChild p.children hash))
      (eraseChild p.children hash ++ [(hash, setParent c (some p.cid))]),
      ?_, ?_, ?_⟩
  · simp only [adoptComponent, addSubComponent, setChildren_children, hnone,
      setChildren_cid]
  · simp only [getComponent, getSubComponent, setChildren_children]
    rw [findChild_append _ _ _ hnone]
    simp [setParent_cid]
  · simp only [getComponent, getSubComponent, setChildren_children]
    rw [findChild_append _ _ _ hnone]
    simp [setParent_payload]

/-- C5 counterexample: on the concrete round trip the whole hook trace is
exactly the two attach events of the adopt — the child's detach hook never
fires, so the claimed detach-then-attach once-each pairing is false. -/
theorem C5_counterexample :
    (separateSubComponent sampleParent 10).2.1 = [] ∧
    adoptComponent (separateSubComponent sampleParent 10).1 10
        ((separateSubComponent sampleParent 10).2.2)
      = Except.ok (Comp.node 1 none 0 [(10, Comp.node 2 (some 1) 5 [])],
          [Event.onComponentAttached 1 2, Event.onAttachedToComponent 2], 2) ∧
    Event.onDetachedFromComponent 2
      ∉ [Event.onComponentAttached 1 2, Event.onAttachedToComponent 2] :=
  ⟨rfl, rfl, by decide⟩

/-- C5 witness: the amended round trip evaluated on the concrete sample. -/
theorem C5_roundtrip_witness :
    (findChild sampleParent.children 10 = some sampleChild ∧
      (sampleParent.children.map Prod.fst).Nodup) ∧
    (separateSubComponent sampleParent 10).2.2 = some sampleChild ∧
    (separateSubComponent sampleParent 10).2.1 = [] :=
  ⟨⟨rfl, by decide⟩,
   (C5_roundtrip sampleParent 10 sampleChild rfl (by decide)).1,
   (C5_roundtrip sampleParent 10 sampleChild rfl (by decide)).2.1⟩

/-- C6: the destructor's hook cascade fires no parent-side
`OnComponentDetached` at all, fires `OnDetachedFromComponent` exactly once
for every direct child (when subtree addresses are distinct), and consists
of the direct-child notifications followed by the recursive destruction of
each child's own subtree (depth-first propagation). -/
theorem C6_destructor (p : Comp)
    (hnd : (subtreeIdsList p.children).Nodup) :
    (∀ a b, Event.onComponentDetached a b ∉ destroyEvents p) ∧
    (∀ kc ∈ p.children,
      (destroyEvents p).count (Event.onDetachedFromComponent kc.2.cid) = 1) ∧
    destroyEvents p
      = p.children.map (fun kc => Event.onDetachedFromComponent kc.2.cid)
          ++ destroyEventsList p.children := by
  refine ⟨?_, ?_, ?_⟩
  · intro a b hmem
    rcases destroyEvents_only_detached p _ hmem with ⟨i, hi⟩
    cases hi
  · intro kc hkc
    rw [count_destroyEvents]
    exact List.count_eq_one_of_mem hnd (cid_mem_subtreeIdsList p.children kc hkc)
  · cases p
    rfl

/-- C6 witness: a parent with two attached children notifies each exactly
once. -/
theorem C6_destructor_witness :
    (subtreeIdsList sampleTwoKids.children).Nodup ∧
    (destroyEvents sampleTwoKids).count (Event.onDetachedFromComponent 2) = 1 ∧
    (destroyEvents sampleTwoKids).count (Event.onDetachedFromComponent 3) = 1 :=
  ⟨by decide,
   (C6_destructor sampleTwoKids (by decide)).2.1
     (10, Comp.node 2 (some 1) 0 []) (by exact List.Mem.head _),
   (C6_destructor sampleTwoKids (by decide)).2.1
     (11, Comp.node 3 (some 1) 0 []) (by exact List.Mem.tail _ (List.Mem.head _))⟩

/-- C7: `SeparateSubComponent` returns null when the key is absent, and
on a parent holding the child returns the owned child the first time and
null on the immediately following call. -/
theorem C7_separate_idempotent (p : Comp) (hash : Nat) (c : Comp)
    (h : findChild p.children hash = some c)
    (hnd : (p.children.map Prod.fst).Nodup) :
    (∀ q : Comp, findChild q.children hash = none →
        separateSubComponent q hash = (q, [], none)) ∧
    (separateSubComponent p hash).2.2 = some c ∧
    (separateSubComponent (separateSubComponent p hash).1 hash).2.2 = none := by
  refine ⟨?_, ?_, ?_⟩
  · intro q hq
    simp only [separateSubComponent, hq]
  · simp only [separateSubComponent, h]
  · simp only [separateSubComponent, h, setChildren_children,
      findChild_eraseChild p.children hash hnd]

/-- C7 witness: both separations evaluated on the concrete sample. -/
theorem C7_separate_idempotent_witness :
    (findChild sampleParent.children 10 = some sampleChild ∧
      (sampleParent.children.map Prod.fst).Nodup) ∧
    (separateSubComponent sampleParent 10).2.2 = some sampleChild ∧
    (separateSubComponent (separateSubComponent sampleParent 10).1 10).2.2
      = none :=
  ⟨⟨rfl, by decide⟩,
   (C7_separate_idempotent sampleParent 10 sampleChild rfl (by decide)).2.1,
   (C7_separate_idempotent sampleParent 10 sampleChild rfl (by decide)).2.2⟩

/-- C8: `RemoveSubComponent` on an absent key is a silent no-op — the
state is unchanged and no hooks fire; on a present key it fires the
child's `OnDetachedFromComponent`, then the parent's `OnComponentDetached`,
then erases the slot, destroying the child (running its destructor's hook
cascade). -/
theorem C8_remove_semantics (p : Comp) (hash : Nat) :
    (findChild p.children hash = none → removeSubComponent p hash = (p, [])) ∧
    (∀ c, findChild p.children hash = some c →
      removeSubComponent p hash
        = (setChildren p (eraseChild p.children hash),
           [Event.onDetachedFromComponent c.cid,
            Event.onComponentDetached p.cid c.cid] ++ destroyEvents c)) := by
  constructor
  · intro hn
    simp only [removeSubComponent, hn]
  · intro c hc
    simp only [removeSubComponent, hc]

/-- C8 witness: both removal paths evaluated on concrete samples. -/
theorem C8_remove_semantics_witness :
    removeSubComponent sampleLeaf 10 = (sampleLeaf, []) ∧
    removeSubComponent sampleParent 10
      = (setChildren sampleParent (eraseChild sampleParent.children 10),
         [Event.onDetachedFromComponent sampleChild.cid,
          Event.onComponentDetached sampleParent.cid sampleChild.cid]
           ++ destroyEvents sampleChild) :=
  ⟨(C8_remove_semantics sampleLeaf 10).1 rfl,
   (C8_remove_semantics sampleParent 10).2 sampleChild rfl⟩

/-- C9: `AcquireComponent` returns the existing child when present
(without mutating or firing hooks) and otherwise attaches a
default-constructed instance with full Add semantics and returns it; two
consecutive acquires yield the same instance (same address). -/
theorem C9_acquire_semantics (p : Comp) (hash : Nat) (fresh fresh2 : Comp) :
    (∀ c, findChild p.children hash = some c →
        acquireComponent p hash fresh = (p, [], c.cid)) ∧
    (findChild p.children hash = none →
        acquireComponent p hash fresh
          = (setChildren p
               (p.children ++ [(hash, setParent fresh (some p.cid))]),
             [Event.onComponentAttached p.cid fresh.cid,
              Event.onAttachedToComponent fresh.cid],
             fresh.cid)) ∧
    (acquireComponent (acquireComponent p hash fresh).1 hash fresh2).2.2
      = (acquireComponent p hash fresh).2.2 := by
  refine ⟨?_, ?_, ?_⟩
  · intro c hc
    simp only [acquireComponent, getComponent, getSubComponent, hc]
  · intro hn
    simp only [acquireComponent, getComponent, getSubComponent, hn,
      addComponent, addSubComponent]
  · cases hfc : findChild p.children hash with
    | some c =>
      simp only [acquireComponent, getComponent, getSubComponent, hfc]
    | none =>
      simp only [acquireComponent, getComponent, getSubComponent, hfc,
        addComponent, addSubComponent, setChildren_children,
        findChild_append p.children hash (setParent fresh (some p.cid)) hfc,
        setParent_cid]

/-- C9 witness: both acquire paths evaluated on concrete samples. -/
theorem C9_acquire_semantics_witness :
    acquireComponent sampleParent 10 sampleNew
      = (sampleParent, [], sampleChild.cid) ∧
    (acquireComponent (acquireComponent sampleLeaf 10 sampleNew).1 10
        sampleNew).2.2
      = (acquireComponent sampleLeaf 10 sampleNew).2.2 :=
  ⟨(C9_acquire_semantics sampleParent 10 sampleNew sampleNew).1 sampleChild rfl,
   (C9_acquire_semantics sampleLeaf 10 sampleNew sampleNew).2.2⟩

/-- C10: `AddSubComponent` succeeds for every non-null pointer — the
unconditional `component_pointer->Parent = this` dereference is then of a
valid pointer — while handing it a null owned pointer (as a null
`AdoptComponent` argument does) reaches the null-pointer dereference,
modelled as the error outcome. -/
theorem C10_null_guard (p : Comp) (hash : Nat) :
    (∀ c : Comp, ∃ r, addSubComponent p hash (some c) = Except.ok r) ∧
    (∃ evs, addSubComponent p hash none = Except.error evs) := by
  constructor
  · intro c
    cases hfc : findChild p.children hash with
    | some old =>
      have hok : addSubComponent p hash (some c)
          = Except.ok
              (setChildren p
                 (replaceChild p.children hash (setParent c (some p.cid))),
               ([Event.onComponentDetached p.cid old.cid,
                 Event.onDetachedFromComponent old.cid] ++ destroyEvents old)
                 ++ [Event.onComponentAttached p.cid c.cid,
                     Event.onAttachedToComponent c.cid],
               c.cid) := by
        simp only [addSubComponent, hfc]
      exact ⟨_, hok⟩
    | none =>
      have hok : addSubComponent p hash (some c)
          = Except.ok
              (setChildren p
                 (p.children ++ [(hash, setParent c (some p.cid))]),
               [Event.onComponentAttached p.cid c.cid,
                Event.onAttachedToComponent c.cid],
               c.cid) := by
        simp only [addSubComponent, hfc]
      exact ⟨_, hok⟩
  · cases hfc : findChild p.children hash with
    | some old =>
      have herr : addSubComponent p hash none
          = Except.error
              ([Event.onComponentDetached p.cid old.cid,
                Event.onDetachedFromComponent old.cid] ++ destroyEvents old) := by
        simp only [addSubComponent, hfc]
      exact ⟨_, herr⟩
    | none =>
      have herr : addSubComponent p hash none = Except.error [] := by
        simp only [addSubComponent, hfc]
      exact ⟨_, herr⟩

/-- C10 witness: both outcomes evaluated on the concrete sample. -/
theorem C10_null_guard_witness :
    (∃ r, addSubComponent sampleParent 10 (some sampleNew) = Except.ok r) ∧
    (∃ evs, addSubComponent sampleParent 10 none = Except.error evs) :=
  ⟨(C10_null_guard sampleParent 10).1 sampleNew,
   (C10_null_guard sampleParent 10).2⟩
